import Mathlib

/-!
Shallow embedding of `LCD-PushWheel.ino` (MajicDesigns/LCD-Pushwheel).

The sketch drives an LCD as a mechanical pushwheel counter.  The pieces
modelled here, with the source names kept:

* `digitsMap`            — the 10 reference glyph bitmaps (8 rows each);
* `digitData_t`          — the per-digit slot record;
* the two row-blending loops of `ST_ANIM` (`blendUp` / `blendDown`);
* the per-digit body of the `ST_ANIM` loop (`tickDigit`);
* the digit decomposition loops of `ST_INIT` / `ST_WAIT`
  (`seedAll` / `retargetAll`);
* the state machine `displayValue` (split into `displayStep` for the state
  update and the returned `state == ST_WAIT` boolean);
* `updateDisplay`        — the slot-to-screen-position mapping;
* `getKey`               — ADC bucketing with debounce.

Time (`millis()`) is passed in explicitly as a natural number `now`; the
sketch's `uint32` subtraction `millis() - t` is modelled as truncated `Nat`
subtraction, which agrees with the source for the monotone clocks used in
every claim.  The C global arrays are zero-initialised, which `zeroDigit`
and `initSys` reproduce.
-/

namespace LCDPushwheel

/-- Animation frame pacing interval in milliseconds (source line 41). -/
def ANIMATION_FRAME_TIME : Nat := 50

/-- Rows in one character cell (source line 48). -/
def CHAR_ROWS : Nat := 8

/-- Number of digit slots (source line 50). -/
def MAX_DIGITS : Nat := 8

/-- Reference glyph bitmaps for digits 0–9, one list of `CHAR_ROWS` row
bitmasks per digit (source lines 64–76). -/
def digitsMap : List (List Nat) :=
  [ [0x0e, 0x11, 0x13, 0x15, 0x19, 0x11, 0x0e, 0x00],
    [0x04, 0x0c, 0x04, 0x04, 0x04, 0x04, 0x0e, 0x00],
    [0x0e, 0x11, 0x01, 0x02, 0x04, 0x08, 0x1f, 0x00],
    [0x1f, 0x02, 0x04, 0x02, 0x01, 0x11, 0x0e, 0x00],
    [0x02, 0x06, 0x0a, 0x12, 0x1f, 0x02, 0x02, 0x00],
    [0x1f, 0x10, 0x1e, 0x01, 0x01, 0x11, 0x0e, 0x00],
    [0x06, 0x08, 0x10, 0x1e, 0x11, 0x11, 0x0e, 0x00],
    [0x1f, 0x11, 0x01, 0x02, 0x04, 0x04, 0x04, 0x00],
    [0x0e, 0x11, 0x11, 0x0e, 0x11, 0x11, 0x0e, 0x00],
    [0x0e, 0x11, 0x11, 0x0f, 0x01, 0x02, 0x0c, 0x00] ]

/-- Bitmap of the reference glyph for digit `d` (`digitsMap[d]`). -/
def glyphBitmap (d : Nat) : List Nat := digitsMap.getD d []

/-- Row `r` of the reference glyph for digit `d` (`digitsMap[d][r]`). -/
def glyphRow (d r : Nat) : Nat := (glyphBitmap d).getD r 0

/-- Per-digit animation state (source lines 52–58). -/
structure digitData_t where
  timeLastFrame : Nat
  prev : Nat
  curr : Nat
  index : Nat
  charMap : List Nat
deriving DecidableEq

/-- Zero-initialised slot: the C globals `digits[]` start as all-zero bytes. -/
def zeroDigit : digitData_t :=
  { timeLastFrame := 0, prev := 0, curr := 0, index := 0,
    charMap := List.replicate CHAR_ROWS 0 }

instance : Inhabited digitData_t := ⟨zeroDigit⟩

/-- Upward-scroll blend at progress `idx` (source lines 219–225): the first
`CHAR_ROWS - idx` rows come from the previous glyph starting at row `idx`,
the remaining rows from the current glyph starting at row 0. -/
def blendUp (prevD currD idx : Nat) : List Nat :=
  (List.range CHAR_ROWS).map fun p =>
    if p < CHAR_ROWS - idx then glyphRow prevD (p + idx)
    else glyphRow currD (p + idx - CHAR_ROWS)

/-- Downward-scroll blend at progress `idx` (source lines 235–241): the first
`idx` rows come from the bottom of the current glyph, the remaining rows
from the top of the previous glyph. -/
def blendDown (prevD currD idx : Nat) : List Nat :=
  (List.range CHAR_ROWS).map fun p =>
    if p < idx then glyphRow currD (p + CHAR_ROWS - idx)
    else glyphRow prevD (p - idx)

/-- Body of the per-digit `ST_ANIM` loop (source lines 205–251): if the slot
is animating and its frame timer has expired, blend a new bitmap at the
current progress `index` in direction `up`, advance `index`, stamp the
frame time, and settle (`prev := curr`) once `index` exceeds `CHAR_ROWS`.
Returns the updated slot and whether a new bitmap was produced. -/
def tickDigit (up : Bool) (now : Nat) (d : digitData_t) : digitData_t × Bool :=
  if d.prev ≠ d.curr ∧ ANIMATION_FRAME_TIME ≤ now - d.timeLastFrame then
    ({ timeLastFrame := now,
       prev := if CHAR_ROWS < d.index + 1 then d.curr else d.prev,
       curr := d.curr,
       index := d.index + 1,
       charMap := if up then blendUp d.prev d.curr d.index
                  else blendDown d.prev d.curr d.index }, true)
  else (d, false)

/-- Per-slot effect of the `ST_WAIT` change-acceptance loop
(source lines 185–194): set the new target digit and reset the animation
progress and frame timer; `prev` and `charMap` are left alone. -/
def retargetDigit (b : Nat) (d : digitData_t) : digitData_t :=
  { d with curr := b, index := 0, timeLastFrame := 0 }

/-- The `ST_WAIT` loop over all slots: slot `i` (head = slot 0, least
significant) receives digit `value % 10` of the successively divided value. -/
def retargetAll : Nat → List digitData_t → List digitData_t
  | _, [] => []
  | v, d :: ds => retargetDigit (v % 10) d :: retargetAll (v / 10) ds

/-- The `ST_INIT` loops over all slots (source lines 161–170): slot `i`
gets `prev = curr =` its decomposed digit and `charMap` copied from
`digitsMap`; `index` and `timeLastFrame` are not touched. -/
def seedAll : Nat → List digitData_t → List digitData_t
  | _, [] => []
  | v, d :: ds =>
      { d with prev := v % 10, curr := v % 10,
               charMap := glyphBitmap (v % 10) } :: seedAll (v / 10) ds

/-- States of the `displayValue` finite state machine (source line 152). -/
inductive MachState
  | ST_INIT
  | ST_WAIT
  | ST_ANIM
deriving DecidableEq

/-- The persistent state of `displayValue`: the static `state` and
`valueLast` locals plus the global `digits[]` array. -/
structure SysState where
  state : MachState
  valueLast : Nat
  digits : List digitData_t
deriving DecidableEq

/-- One pass of the `ST_ANIM` digit loop over the whole array. -/
def tickAll (up : Bool) (now : Nat) (ds : List digitData_t) : List digitData_t :=
  ds.map fun d => (tickDigit up now d).1

/-- The `ST_ANIM` case of `displayValue` (source lines 201–271): tick every
slot with the shared direction `valueLast < valCmp` (the source's
`value > valueLast`), then settle to `ST_WAIT` with `valueLast := valCmp`
once every slot has `prev == curr`. -/
def animStep (now valCmp : Nat) (s : SysState) : SysState :=
  if (tickAll (decide (s.valueLast < valCmp)) now s.digits).all
      (fun d => d.prev == d.curr) then
    { state := MachState.ST_WAIT, valueLast := valCmp,
      digits := tickAll (decide (s.valueLast < valCmp)) now s.digits }
  else
    { state := MachState.ST_ANIM, valueLast := s.valueLast,
      digits := tickAll (decide (s.valueLast < valCmp)) now s.digits }

/-- State transition of one `displayValue(value)` call.  In `ST_WAIT`, when a
change is accepted, the local `value` has been divided by 10 once per slot
by the decomposition loop before execution falls through into `ST_ANIM`, so
the fall-through runs with `value / 10 ^ MAX_DIGITS`. -/
def displayStep (now value : Nat) (s : SysState) : SysState :=
  match s.state with
  | MachState.ST_INIT =>
      { state := MachState.ST_WAIT, valueLast := s.valueLast,
        digits := seedAll value s.digits }
  | MachState.ST_WAIT =>
      if s.valueLast ≠ value then
        animStep now (value / 10 ^ MAX_DIGITS)
          { state := MachState.ST_ANIM, valueLast := s.valueLast,
            digits := retargetAll value s.digits }
      else s
  | MachState.ST_ANIM => animStep now value s

/-- Full `displayValue` call: new state plus the returned
`state == ST_WAIT` boolean (source line 277). -/
def displayValue (now value : Nat) (s : SysState) : SysState × Bool :=
  (displayStep now value s, decide ((displayStep now value s).state = MachState.ST_WAIT))

/-- Left-to-right screen contents produced by `updateDisplay` (source lines
134–143): screen position `i` shows the bitmap of slot
`MAX_DIGITS - i - 1`, so slot 0 (least significant digit) lands rightmost. -/
def updateDisplay (ds : List digitData_t) : List (List Nat) :=
  (List.range MAX_DIGITS).map fun i => (ds.getD (MAX_DIGITS - i - 1) zeroDigit).charMap

/-- Startup state: statics `state = ST_INIT`, `valueLast = 0`, and the
zero-initialised global `digits[]`. -/
def initSys : SysState :=
  { state := MachState.ST_INIT, valueLast := 0,
    digits := List.replicate MAX_DIGITS zeroDigit }

/-- Iterate `displayValue` over a list of `(now, value)` polls. -/
def pollRun (s : SysState) : List (Nat × Nat) → SysState
  | [] => s
  | p :: ps => pollRun (displayStep p.1 p.2 s) ps

/-- Iterate `tickDigit` on one slot over a list of timestamps, counting the
ticks that report a changed bitmap. -/
def tickRun (up : Bool) : digitData_t → List Nat → digitData_t × Nat
  | d, [] => (d, 0)
  | d, t :: ts =>
      ((tickRun up (tickDigit up t d).1 ts).1,
       (if (tickDigit up t d).2 then 1 else 0) + (tickRun up (tickDigit up t d).1 ts).2)

/-- Key identifiers (source lines 80–85). -/
def KEY_NONE : Nat := 0

/-- Key identifier for RIGHT. -/
def KEY_RIGHT : Nat := 1

/-- Key identifier for UP. -/
def KEY_UP : Nat := 2

/-- Key identifier for DOWN. -/
def KEY_DOWN : Nat := 3

/-- Key identifier for LEFT. -/
def KEY_LEFT : Nat := 4

/-- Key identifier for SELECT. -/
def KEY_SELECT : Nat := 5

/-- Voltage-divider threshold table (source lines 93–100), in source order. -/
def keyDefTable : List (Nat × Nat) :=
  [(760, KEY_SELECT), (535, KEY_LEFT), (360, KEY_DOWN), (160, KEY_UP), (60, KEY_RIGHT)]

/-- The bucketing loop of `getKey` (source lines 112–118): walk the table,
remembering the id of every threshold the input is below, and stop at the
first threshold it is not below. -/
def scanLoop (input : Nat) : List (Nat × Nat) → Nat → Nat
  | [], key => key
  | e :: rest, key => if input < e.1 then scanLoop input rest e.2 else key

/-- ADC value to key id, ignoring debounce. -/
def scanKey (input : Nat) : Nat := scanLoop input keyDefTable KEY_NONE

/-- Full `getKey` (source lines 102–125) with the static `lastCheck` made
explicit: scan only when more than 200 ms have passed since the last
accepted key, and restamp `lastCheck` when a key is returned. -/
def getKey (now input lastCheck : Nat) : Nat × Nat :=
  if 200 < now - lastCheck then
    (scanKey input, if scanKey input ≠ KEY_NONE then now else lastCheck)
  else
    (KEY_NONE, lastCheck)

/-- Concrete reachable run: initialise at value 0, then accept a change to 1
at t = 100 and animate it to completion; from t = 450 the supplied value is
already 2 (a mid-animation retarget), so the completing poll at t = 500
records `valueLast = 2` while the digits show 1. -/
def runState1 : SysState :=
  pollRun initSys
    [(0, 0), (100, 1), (150, 1), (200, 1), (250, 1), (300, 1), (350, 1),
     (400, 1), (450, 2), (500, 2)]

/-- Continuation of `runState1`: accept a change to 4 (slot 0 rolls 1 → 4)
and advance two frames, the second with the supplied value still 4. -/
def runState2 : SysState := pollRun runState1 [(700, 4), (750, 4)]

/-- One further poll on `runState2` in which the externally supplied value
has dropped to 1 while slot 0 is still rolling 1 → 4. -/
def runState3 : SysState := displayStep 800 1 runState2

/-- Small concrete `ST_ANIM` state used by witnesses: slot 0 is animating
1 → 4 with an expired frame timer, slot 1 is settled at 5. -/
def wAnimState : SysState :=
  { state := MachState.ST_ANIM, valueLast := 3,
    digits := [{ timeLastFrame := 0, prev := 1, curr := 4, index := 2, charMap := [] },
               { timeLastFrame := 0, prev := 5, curr := 5, index := 0, charMap := [] }] }

/-- Concrete settled slot showing digit 8, used by witnesses. -/
def wSlot8 : digitData_t :=
  { timeLastFrame := 0, prev := 8, curr := 8, index := 0, charMap := glyphBitmap 8 }

/-- Concrete mid-animation slot whose frame timer has not yet expired at
time 120 (last frame at 100), used by witnesses. -/
def wSlotMid : digitData_t :=
  { timeLastFrame := 100, prev := 3, curr := 4, index := 2, charMap := [] }

/-! ### Helper lemmas -/

theorem getD_map_lt {α β : Type} (f : α → β) (z : α) (w : β) :
    ∀ (l : List α) (i : Nat), i < l.length → (l.map f).getD i w = f (l.getD i z)
  | a :: l, 0, _ => rfl
  | a :: l, i + 1, h => by
      simpa using getD_map_lt f z w l i (by simpa using h)

theorem tickAll_length (up : Bool) (now : Nat) (ds : List digitData_t) :
    (tickAll up now ds).length = ds.length := by
  simp [tickAll]

theorem tickAll_getD (up : Bool) (now : Nat) (ds : List digitData_t) (i : Nat)
    (h : i < ds.length) :
    (tickAll up now ds).getD i zeroDigit = (tickDigit up now (ds.getD i zeroDigit)).1 :=
  getD_map_lt _ zeroDigit zeroDigit ds i h

theorem retargetAll_length (v : Nat) (ds : List digitData_t) :
    (retargetAll v ds).length = ds.length := by
  induction ds generalizing v with
  | nil => rfl
  | cons d ds ih => simp [retargetAll, ih]

theorem retargetAll_getD :
    ∀ (ds : List digitData_t) (v i : Nat), i < ds.length →
      (retargetAll v ds).getD i zeroDigit
        = retargetDigit (v / 10 ^ i % 10) (ds.getD i zeroDigit)
  | d :: ds, v, 0, _ => by simp [retargetAll]
  | d :: ds, v, i + 1, h => by
      have := retargetAll_getD ds (v / 10) i (by simpa using h)
      simpa [retargetAll, Nat.div_div_eq_div_mul, Nat.pow_succ, Nat.mul_comm] using this

theorem seedAll_getD :
    ∀ (ds : List digitData_t) (v i : Nat), i < ds.length →
      (seedAll v ds).getD i zeroDigit
        = { ds.getD i zeroDigit with prev := (v / 10 ^ i % 10),
                                     curr := (v / 10 ^ i % 10),
                                     charMap := glyphBitmap (v / 10 ^ i % 10) }
  | d :: ds, v, 0, _ => by simp [seedAll]
  | d :: ds, v, i + 1, h => by
      have := seedAll_getD ds (v / 10) i (by simpa using h)
      simpa [seedAll, Nat.div_div_eq_div_mul, Nat.pow_succ, Nat.mul_comm] using this

theorem retargetAll_mod :
    ∀ (ds : List digitData_t) (v : Nat),
      retargetAll v ds = retargetAll (v % 10 ^ ds.length) ds
  | [], v => rfl
  | d :: ds, v => by
      have hd : v % 10 ^ (d :: ds).length % 10 = v % 10 :=
        Nat.mod_mod_of_dvd v (dvd_pow_self 10 (Nat.succ_ne_zero _))
      have ht : v % 10 ^ (d :: ds).length / 10 = v / 10 % 10 ^ ds.length := by
        have : (10 : Nat) ^ (d :: ds).length = 10 * 10 ^ ds.length := by
          simp [Nat.pow_succ, Nat.mul_comm]
        rw [this, Nat.mod_mul_right_div_self]
      calc retargetAll v (d :: ds)
          = retargetDigit (v % 10) d :: retargetAll (v / 10) ds := rfl
        _ = retargetDigit (v % 10 ^ (d :: ds).length % 10) d ::
              retargetAll (v % 10 ^ (d :: ds).length / 10) ds := by
            rw [hd, ht, retargetAll_mod ds (v / 10)]
        _ = retargetAll (v % 10 ^ (d :: ds).length) (d :: ds) := rfl

theorem seedAll_mod :
    ∀ (ds : List digitData_t) (v : Nat),
      seedAll v ds = seedAll (v % 10 ^ ds.length) ds
  | [], v => rfl
  | d :: ds, v => by
      have hd : v % 10 ^ (d :: ds).length % 10 = v % 10 :=
        Nat.mod_mod_of_dvd v (dvd_pow_self 10 (Nat.succ_ne_zero _))
      have ht : v % 10 ^ (d :: ds).length / 10 = v / 10 % 10 ^ ds.length := by
        have : (10 : Nat) ^ (d :: ds).length = 10 * 10 ^ ds.length := by
          simp [Nat.pow_succ, Nat.mul_comm]
        rw [this, Nat.mod_mul_right_div_self]
      calc seedAll v (d :: ds)
          = { d with prev := v % 10,
                     curr := v % 10,
                     charMap := glyphBitmap (v % 10) } :: seedAll (v / 10) ds := rfl
        _ = { d with prev := (v % 10 ^ (d :: ds).length % 10),
                     curr := (v % 10 ^ (d :: ds).length % 10),
                     charMap := glyphBitmap (v % 10 ^ (d :: ds).length % 10) } ::
              seedAll (v % 10 ^ (d :: ds).length / 10) ds := by
            rw [hd, ht, seedAll_mod ds (v / 10)]
        _ = seedAll (v % 10 ^ (d :: ds).length) (d :: ds) := rfl

theorem tickDigit_settled (up : Bool) (now : Nat) (d : digitData_t)
    (h : d.prev = d.curr) : tickDigit up now d = (d, false) := by
  simp [tickDigit, h]

theorem tickDigit_notTime (up : Bool) (now : Nat) (d : digitData_t)
    (h : now - d.timeLastFrame < ANIMATION_FRAME_TIME) :
    tickDigit up now d = (d, false) := by
  simp [tickDigit]
  intro h1
  omega

theorem tickDigit_fire (up : Bool) (now : Nat) (d : digitData_t)
    (h1 : d.prev ≠ d.curr) (h2 : ANIMATION_FRAME_TIME ≤ now - d.timeLastFrame) :
    tickDigit up now d =
      ({ timeLastFrame := now,
         prev := if CHAR_ROWS < d.index + 1 then d.curr else d.prev,
         curr := d.curr,
         index := d.index + 1,
         charMap := if up then blendUp d.prev d.curr d.index
                    else blendDown d.prev d.curr d.index }, true) := by
  simp [tickDigit, h1, h2]

theorem tickDigit_curr (up : Bool) (now : Nat) (d : digitData_t) :
    (tickDigit up now d).1.curr = d.curr := by
  unfold tickDigit
  split <;> rfl

theorem tickDigit_index (up : Bool) (now : Nat) (d : digitData_t) :
    (tickDigit up now d).1.index = d.index ∨
      (tickDigit up now d).1.index = d.index + 1 := by
  unfold tickDigit
  split
  · exact Or.inr rfl
  · exact Or.inl rfl

theorem animStep_digits (now valCmp : Nat) (s : SysState) :
    (animStep now valCmp s).digits
      = tickAll (decide (s.valueLast < valCmp)) now s.digits := by
  unfold animStep
  split <;> rfl

theorem displayStep_WAIT_accept (now v : Nat) (s : SysState)
    (hst : s.state = MachState.ST_WAIT) (hne : s.valueLast ≠ v) :
    displayStep now v s =
      animStep now (v / 10 ^ MAX_DIGITS)
        { state := MachState.ST_ANIM, valueLast := s.valueLast,
          digits := retargetAll v s.digits } := by
  unfold displayStep
  rw [hst]
  simp [hne]

theorem displayStep_WAIT_same (now v : Nat) (s : SysState)
    (hst : s.state = MachState.ST_WAIT) (heq : s.valueLast = v) :
    displayStep now v s = s := by
  unfold displayStep
  rw [hst]
  simp [heq]

theorem displayStep_ANIM (now v : Nat) (s : SysState)
    (hst : s.state = MachState.ST_ANIM) :
    displayStep now v s = animStep now v s := by
  unfold displayStep
  rw [hst]

theorem displayStep_INIT (now v : Nat) (s : SysState)
    (hst : s.state = MachState.ST_INIT) :
    displayStep now v s =
      { state := MachState.ST_WAIT, valueLast := s.valueLast,
        digits := seedAll v s.digits } := by
  unfold displayStep
  rw [hst]

theorem pollRun_fixed (v : Nat) (s : SysState)
    (hs : ∀ t, displayStep t v s = s) :
    ∀ ps : List (Nat × Nat), (∀ p ∈ ps, p.2 = v) → pollRun s ps = s
  | [], _ => rfl
  | q :: qs, h => by
      have hq : q.2 = v := h q (List.mem_cons_self _ _)
      show pollRun (displayStep q.1 q.2 s) qs = s
      rw [hq, hs q.1]
      exact pollRun_fixed v s hs qs (fun p hp => h p (List.mem_cons_of_mem _ hp))

theorem tickAll_index_or (up : Bool) (now : Nat) (ds : List digitData_t) (i : Nat)
    (h : i < ds.length) :
    ((tickAll up now ds).getD i zeroDigit).index = (ds.getD i zeroDigit).index ∨
      ((tickAll up now ds).getD i zeroDigit).index = (ds.getD i zeroDigit).index + 1 := by
  rw [tickAll_getD up now ds i h]
  exact tickDigit_index up now _

theorem tickAll_index_le (up : Bool) (now : Nat) (ds : List digitData_t) (i : Nat)
    (h : i < ds.length) :
    ((tickAll up now ds).getD i zeroDigit).index ≤ (ds.getD i zeroDigit).index + 1 := by
  rcases tickAll_index_or up now ds i h with h2 | h2 <;> omega

theorem blendUp_zero (a b : Nat) : blendUp a b 0 = blendDown a b 0 := by
  unfold blendUp blendDown
  apply List.map_congr_left
  intro p hp
  rw [List.mem_range] at hp
  have h1 : p < CHAR_ROWS - 0 := by simpa using hp
  have h2 : ¬ p < 0 := by omega
  rw [if_pos h1, if_neg h2]
  simp

theorem tickRun_settled (up : Bool) (d : digitData_t) (h : d.prev = d.curr) :
    ∀ ts : List Nat, tickRun up d ts = (d, 0)
  | [] => rfl
  | t :: ts => by
      simp [tickRun, tickDigit_settled up t d h, tickRun_settled up d h ts]

theorem tickRun_cons_fst (up : Bool) (t : Nat) (ts : List Nat) (d D : digitData_t)
    (ch : Bool) (h : tickDigit up t d = (D, ch)) :
    (tickRun up d (t :: ts)).1 = (tickRun up D ts).1 := by
  simp [tickRun, h]

theorem tickRun_cons_snd (up : Bool) (t : Nat) (ts : List Nat) (d D : digitData_t)
    (ch : Bool) (h : tickDigit up t d = (D, ch)) :
    (tickRun up d (t :: ts)).2 = (if ch then 1 else 0) + (tickRun up D ts).2 := by
  simp [tickRun, h]

theorem tickRun_anim (up : Bool) :
    ∀ (ts : List Nat) (d : digitData_t), d.prev ≠ d.curr → d.index ≤ CHAR_ROWS →
      List.Chain' (fun x y => x + ANIMATION_FRAME_TIME ≤ y) (d.timeLastFrame :: ts) →
      CHAR_ROWS + 1 - d.index ≤ ts.length →
      (tickRun up d ts).1.prev = d.curr ∧ (tickRun up d ts).1.curr = d.curr ∧
        (tickRun up d ts).2 = CHAR_ROWS + 1 - d.index
  | [], d, _, hidx, _, hlen => by
      simp only [CHAR_ROWS] at hidx
      simp only [CHAR_ROWS, List.length_nil] at hlen
      omega
  | t :: ts, d, hne, hidx, hch, hlen => by
      have ht : d.timeLastFrame + ANIMATION_FRAME_TIME ≤ t := (List.chain'_cons.mp hch).1
      have hch2 := (List.chain'_cons.mp hch).2
      have hfire := tickDigit_fire up t d hne (by omega)
      simp only [List.length_cons] at hlen
      by_cases hc : d.index = CHAR_ROWS
      · have hsn : (if CHAR_ROWS < d.index + 1 then d.curr else d.prev) = d.curr :=
          if_pos (by omega)
        rw [hsn] at hfire
        rw [tickRun_cons_fst up t ts d _ true hfire,
            tickRun_cons_snd up t ts d _ true hfire,
            tickRun_settled up _ rfl ts]
        refine ⟨rfl, rfl, ?_⟩
        simp only [CHAR_ROWS] at hc ⊢
        simp
        omega
      · have hlt : d.index < CHAR_ROWS := lt_of_le_of_ne hidx hc
        have hsn : (if CHAR_ROWS < d.index + 1 then d.curr else d.prev) = d.prev :=
          if_neg (by simp only [CHAR_ROWS] at hlt ⊢; omega)
        rw [hsn] at hfire
        rw [tickRun_cons_fst up t ts d _ true hfire,
            tickRun_cons_snd up t ts d _ true hfire]
        have hrec := tickRun_anim up ts
          { timeLastFrame := t, prev := d.prev, curr := d.curr,
            index := d.index + 1,
            charMap := if up then blendUp d.prev d.curr d.index
                       else blendDown d.prev d.curr d.index }
          hne
          (by show d.index + 1 ≤ CHAR_ROWS
              simp only [CHAR_ROWS] at hlt ⊢
              omega)
          hch2
          (by show CHAR_ROWS + 1 - (d.index + 1) ≤ ts.length
              simp only [CHAR_ROWS] at hlen ⊢
              omega)
        refine ⟨hrec.1, hrec.2.1, ?_⟩
        rw [hrec.2.2]
        show (if true = true then 1 else 0) + (CHAR_ROWS + 1 - (d.index + 1))
          = CHAR_ROWS + 1 - d.index
        simp only [CHAR_ROWS] at hlt ⊢
        simp
        omega

/-! ### Claim theorems -/

/-- C10: for digits `a` and `b`, the blended bitmap at progress 0 is exactly
the reference glyph of the previous digit `a`, and the blended bitmap at
progress `CHAR_ROWS` (the last changed frame) is exactly the reference glyph
of the current digit `b`, in both scroll directions. -/
theorem C10_theorem (a b : Nat) (ha : a < 10) (hb : b < 10) :
    blendUp a b 0 = glyphBitmap a ∧ blendDown a b 0 = glyphBitmap a ∧
    blendUp a b CHAR_ROWS = glyphBitmap b ∧ blendDown a b CHAR_ROWS = glyphBitmap b := by
  interval_cases a <;> interval_cases b <;> exact ⟨by decide, by decide, by decide, by decide⟩

/-- Witness for C10 at the concrete digit pair (3, 7). -/
theorem C10_witness :
    blendUp 3 7 0 = glyphBitmap 3 ∧ blendDown 3 7 0 = glyphBitmap 3 ∧
    blendUp 3 7 CHAR_ROWS = glyphBitmap 7 ∧ blendDown 3 7 CHAR_ROWS = glyphBitmap 7 :=
  C10_theorem 3 7 (by decide) (by decide)

/-- C4 fails as stated: for the pair (previous, current) = (0, 1), the
downward roll does not pass through the same intermediate bitmaps as the
upward roll over the same pair — the downward frame sequence is not the
reversed upward frame sequence, and the downward frame at progress 4 is not
among the upward frames at all. -/
theorem C4_counterexample :
    (List.range (CHAR_ROWS + 1)).map (blendDown 0 1)
        ≠ ((List.range (CHAR_ROWS + 1)).map (blendUp 0 1)).reverse ∧
    ¬ blendDown 0 1 4 ∈ (List.range (CHAR_ROWS + 1)).map (blendUp 0 1) := by
  decide

/-- C4 amended: the mirror symmetry holds with the glyph pair swapped: the
downward roll from `a` to `b` passes through exactly the upward roll from
`b` to `a`, traversed in reverse frame order
(`blendDown a b i = blendUp b a (CHAR_ROWS - i)` for `i ≤ CHAR_ROWS`). -/
theorem C4_theorem (a b i : Nat) (hi : i ≤ CHAR_ROWS) :
    blendDown a b i = blendUp b a (CHAR_ROWS - i) := by
  simp only [CHAR_ROWS] at hi
  simp only [blendDown, blendUp, CHAR_ROWS]
  apply List.map_congr_left
  intro p hp
  rw [List.mem_range] at hp
  by_cases h : p < i
  · rw [if_pos h, if_pos (by omega)]
    congr 1
    omega
  · rw [if_neg h, if_neg (by omega)]
    congr 1
    omega

/-- Witness for C4's amended statement at (a, b, i) = (0, 1, 3). -/
theorem C4_witness : blendDown 0 1 3 = blendUp 1 0 (CHAR_ROWS - 3) :=
  C4_theorem 0 1 3 (by decide)

/-- C8: when more than the debounce interval has passed, `getKey` buckets the
analog input against the descending thresholds (input below 60 → RIGHT,
below 160 → UP, below 360 → DOWN, below 535 → LEFT, below 760 → SELECT, at
or above 760 → NONE); and any call within 200 ms of the last accepted key
returns NONE regardless of input, leaving the debounce stamp unchanged. -/
theorem C8_theorem (now input lastCheck now2 input2 lastCheck2 : Nat)
    (h1 : 200 < now - lastCheck) (h2 : now2 - lastCheck2 ≤ 200) :
    (getKey now input lastCheck).1 =
      (if input < 60 then KEY_RIGHT
       else if input < 160 then KEY_UP
       else if input < 360 then KEY_DOWN
       else if input < 535 then KEY_LEFT
       else if input < 760 then KEY_SELECT
       else KEY_NONE) ∧
    getKey now2 input2 lastCheck2 = (KEY_NONE, lastCheck2) := by
  constructor
  · rw [getKey, if_pos h1]
    simp only [scanKey, keyDefTable, scanLoop]
    split_ifs <;> first | rfl | omega
  · rw [getKey, if_neg (by omega)]

/-- Witness for C8: input 100 after 500 ms buckets to UP; a call 100 ms
after the last accepted key returns NONE. -/
theorem C8_witness :
    (getKey 500 100 0).1 =
      (if (100 : Nat) < 60 then KEY_RIGHT
       else if (100 : Nat) < 160 then KEY_UP
       else if (100 : Nat) < 360 then KEY_DOWN
       else if (100 : Nat) < 535 then KEY_LEFT
       else if (100 : Nat) < 760 then KEY_SELECT
       else KEY_NONE) ∧
    getKey 700 250 600 = (KEY_NONE, 600) :=
  C8_theorem 500 100 0 700 250 600 (by decide) (by decide)

/-- C7: once the controller is in `ST_WAIT` with `valueLast = v`, a poll
supplying `v` returns Idle (`true`) and leaves the whole state (every slot
and the settled value) unchanged; iterating any number of such polls, at
arbitrary timestamps, also leaves the state unchanged, so an animation is
never re-triggered. -/
theorem C7_theorem (s : SysState) (v now : Nat) (ps : List (Nat × Nat))
    (hst : s.state = MachState.ST_WAIT) (hvl : s.valueLast = v)
    (hps : ∀ p ∈ ps, p.2 = v) :
    displayValue now v s = (s, true) ∧ pollRun s ps = s := by
  have hstep : ∀ t, displayStep t v s = s := fun t => displayStep_WAIT_same t v s hst hvl
  refine ⟨?_, pollRun_fixed v s hstep ps hps⟩
  unfold displayValue
  rw [hstep, hst]
  simp

/-- Witness for C7 on the reachable state `runState1` (settled value 2),
polled three more times with value 2. -/
theorem C7_witness :
    displayValue 900 2 runState1 = (runState1, true) ∧
    pollRun runState1 [(1000, 2), (1100, 2), (7777, 2)] = runState1 :=
  C7_theorem runState1 2 900 [(1000, 2), (1100, 2), (7777, 2)]
    (by decide) (by decide) (by decide)

/-- C3: retargeting a settled slot from digit `a` to digit `b` (with
`a ≠ b`, which resets the frame timer to 0) and then ticking it at
timestamps spaced at least the 50 ms frame interval apart (starting at
least one interval after the reset) eventually yields a settled slot with
`curr = b`, with exactly `CHAR_ROWS + 1 = 9` ticks reporting a changed
bitmap, however many further ticks follow; a tick on an already-settled
slot, or a tick arriving less than one frame interval after the slot's
last advanced frame, reports no change and leaves the slot unchanged. -/
theorem C3_theorem (a b t1 t2 : Nat) (up : Bool) (d e e2 : digitData_t)
    (ts : List Nat)
    (hprev : d.prev = a) (hcurr : d.curr = a) (hab : a ≠ b)
    (hch : List.Chain' (fun x y => x + ANIMATION_FRAME_TIME ≤ y) (0 :: ts))
    (hlen : CHAR_ROWS + 1 ≤ ts.length)
    (hset : e.prev = e.curr)
    (htime : t2 - e2.timeLastFrame < ANIMATION_FRAME_TIME) :
    (tickRun up (retargetDigit b d) ts).1.prev = b ∧
    (tickRun up (retargetDigit b d) ts).1.curr = b ∧
    (tickRun up (retargetDigit b d) ts).2 = CHAR_ROWS + 1 ∧
    tickDigit up t1 e = (e, false) ∧
    tickDigit up t2 e2 = (e2, false) := by
  have hne : (retargetDigit b d).prev ≠ (retargetDigit b d).curr := by
    show d.prev ≠ b
    rw [hprev]
    exact hab
  have h := tickRun_anim up ts (retargetDigit b d) hne
    (by show (0 : Nat) ≤ CHAR_ROWS; omega)
    (by show List.Chain' _ (0 :: ts); exact hch)
    (by show CHAR_ROWS + 1 - 0 ≤ ts.length; omega)
  refine ⟨h.1, h.2.1, ?_, tickDigit_settled up t1 e hset, tickDigit_notTime up t2 e2 htime⟩
  rw [h.2.2]
  rfl

/-- Witness for C3: slot settled at 8 retargeted to 9 and ticked at
50, 100, …, 500 ms; plus a settled slot and a too-early tick. -/
theorem C3_witness :
    (tickRun true (retargetDigit 9 wSlot8) [50, 100, 150, 200, 250, 300, 350, 400, 450, 500]).1.prev = 9 ∧
    (tickRun true (retargetDigit 9 wSlot8) [50, 100, 150, 200, 250, 300, 350, 400, 450, 500]).1.curr = 9 ∧
    (tickRun true (retargetDigit 9 wSlot8) [50, 100, 150, 200, 250, 300, 350, 400, 450, 500]).2 = CHAR_ROWS + 1 ∧
    tickDigit true 999 zeroDigit = (zeroDigit, false) ∧
    tickDigit true 120 wSlotMid = (wSlotMid, false) :=
  C3_theorem 8 9 999 120 true wSlot8 zeroDigit wSlotMid
    [50, 100, 150, 200, 250, 300, 350, 400, 450, 500]
    rfl rfl (by decide)
    (by norm_num [List.chain'_cons, ANIMATION_FRAME_TIME])
    (by decide) rfl (by decide)

/-- C5: at initialization (`ST_INIT`) and at an accepted Idle-state value
change (`ST_WAIT` with a differing value), slot `i` receives digit
`value / 10^i % 10`; the decomposition depends only on
`value % 10 ^ MAX_DIGITS`, so digits beyond the fixed slot capacity are
silently truncated (and `displayStep` reports no error — it is total); and
the rightmost screen position always shows slot 0, the least significant
digit. -/
theorem C5_theorem (v now now2 i : Nat) (s t : SysState)
    (hs : s.state = MachState.ST_INIT) (hsl : s.digits.length = MAX_DIGITS)
    (ht : t.state = MachState.ST_WAIT) (htv : t.valueLast ≠ v)
    (htl : t.digits.length = MAX_DIGITS) (hi : i < MAX_DIGITS) :
    ((displayStep now v s).digits.getD i zeroDigit).curr = v / 10 ^ i % 10 ∧
    ((displayStep now v s).digits.getD i zeroDigit).prev = v / 10 ^ i % 10 ∧
    ((displayStep now2 v t).digits.getD i zeroDigit).curr = v / 10 ^ i % 10 ∧
    seedAll v s.digits = seedAll (v % 10 ^ MAX_DIGITS) s.digits ∧
    retargetAll v t.digits = retargetAll (v % 10 ^ MAX_DIGITS) t.digits ∧
    (updateDisplay (displayStep now v s).digits).getD (MAX_DIGITS - 1) []
      = ((displayStep now v s).digits.getD 0 zeroDigit).charMap := by
  have hgi : i < s.digits.length := by rw [hsl]; exact hi
  have hti : i < t.digits.length := by rw [htl]; exact hi
  refine ⟨?_, ?_, ?_, ?_, ?_, ?_⟩
  · rw [displayStep_INIT now v s hs]
    show ((seedAll v s.digits).getD i zeroDigit).curr = v / 10 ^ i % 10
    rw [seedAll_getD s.digits v i hgi]
  · rw [displayStep_INIT now v s hs]
    show ((seedAll v s.digits).getD i zeroDigit).prev = v / 10 ^ i % 10
    rw [seedAll_getD s.digits v i hgi]
  · rw [displayStep_WAIT_accept now2 v t ht htv, animStep_digits]
    show ((tickAll _ now2 (retargetAll v t.digits)).getD i zeroDigit).curr = v / 10 ^ i % 10
    rw [tickAll_getD _ now2 (retargetAll v t.digits) i
          (by rw [retargetAll_length]; exact hti),
        tickDigit_curr, retargetAll_getD t.digits v i hti]
    rfl
  · have h := seedAll_mod s.digits v
    rwa [hsl] at h
  · have h := retargetAll_mod t.digits v
    rwa [htl] at h
  · rfl

/-- Witness for C5: initialization from `initSys` and an accepted change on
the reachable state `runState1`, with value 1234512345 (10 digits, so the
top two digits are truncated), at slot 3. -/
theorem C5_witness :
    ((displayStep 0 1234512345 initSys).digits.getD 3 zeroDigit).curr
      = 1234512345 / 10 ^ 3 % 10 ∧
    ((displayStep 0 1234512345 initSys).digits.getD 3 zeroDigit).prev
      = 1234512345 / 10 ^ 3 % 10 ∧
    ((displayStep 600 1234512345 runState1).digits.getD 3 zeroDigit).curr
      = 1234512345 / 10 ^ 3 % 10 ∧
    seedAll 1234512345 initSys.digits
      = seedAll (1234512345 % 10 ^ MAX_DIGITS) initSys.digits ∧
    retargetAll 1234512345 runState1.digits
      = retargetAll (1234512345 % 10 ^ MAX_DIGITS) runState1.digits ∧
    (updateDisplay (displayStep 0 1234512345 initSys).digits).getD (MAX_DIGITS - 1) []
      = ((displayStep 0 1234512345 initSys).digits.getD 0 zeroDigit).charMap :=
  C5_theorem 1234512345 0 600 3 initSys runState1
    rfl rfl (by decide) (by decide) (by decide) (by decide)

/-- C6: when a change is accepted while Idle, a slot whose decomposed digit
equals its settled digit keeps its `prev`, `curr` and bitmap and stays
settled; and while Animating, every poll leaves every settled slot entirely
unchanged — so only the slots whose digit differs ever animate. -/
theorem C6_theorem (s t : SysState) (now v now2 v2 i j : Nat)
    (hs : s.state = MachState.ST_WAIT) (hsv : s.valueLast ≠ v)
    (hi : i < s.digits.length)
    (hset : (s.digits.getD i zeroDigit).prev = (s.digits.getD i zeroDigit).curr)
    (hdig : (s.digits.getD i zeroDigit).curr = v / 10 ^ i % 10)
    (ht : t.state = MachState.ST_ANIM) (hj : j < t.digits.length)
    (hsett : (t.digits.getD j zeroDigit).prev = (t.digits.getD j zeroDigit).curr) :
    ((displayStep now v s).digits.getD i zeroDigit).prev
      = (s.digits.getD i zeroDigit).prev ∧
    ((displayStep now v s).digits.getD i zeroDigit).curr
      = (s.digits.getD i zeroDigit).curr ∧
    ((displayStep now v s).digits.getD i zeroDigit).charMap
      = (s.digits.getD i zeroDigit).charMap ∧
    ((displayStep now v s).digits.getD i zeroDigit).prev
      = ((displayStep now v s).digits.getD i zeroDigit).curr ∧
    (displayStep now2 v2 t).digits.getD j zeroDigit = t.digits.getD j zeroDigit := by
  have hslot :
      (displayStep now v s).digits.getD i zeroDigit
        = retargetDigit (v / 10 ^ i % 10) (s.digits.getD i zeroDigit) := by
    rw [displayStep_WAIT_accept now v s hs hsv, animStep_digits]
    show (tickAll _ now (retargetAll v s.digits)).getD i zeroDigit = _
    rw [tickAll_getD _ now (retargetAll v s.digits) i
          (by rw [retargetAll_length]; exact hi),
        retargetAll_getD s.digits v i hi,
        tickDigit_settled]
    show (s.digits.getD i zeroDigit).prev = v / 10 ^ i % 10
    rw [hset, hdig]
  have hanim :
      (displayStep now2 v2 t).digits.getD j zeroDigit = t.digits.getD j zeroDigit := by
    rw [displayStep_ANIM now2 v2 t ht, animStep_digits,
        tickAll_getD _ now2 t.digits j hj, tickDigit_settled _ _ _ hsett]
  refine ⟨?_, ?_, ?_, ?_, hanim⟩
  · rw [hslot]
    rfl
  · rw [hslot, hdig.symm]
    rfl
  · rw [hslot]
    rfl
  · rw [hslot]
    show (s.digits.getD i zeroDigit).prev = v / 10 ^ i % 10
    rw [hset, hdig]

/-- Witness for C6: `runState1` (settled at digits …00000001, `valueLast = 2`)
accepts value 21; slot 0 keeps digit 1 and stays settled; and a poll on the
animating state `wAnimState` leaves its settled slot 1 unchanged. -/
theorem C6_witness :
    ((displayStep 600 21 runState1).digits.getD 0 zeroDigit).prev
      = (runState1.digits.getD 0 zeroDigit).prev ∧
    ((displayStep 600 21 runState1).digits.getD 0 zeroDigit).curr
      = (runState1.digits.getD 0 zeroDigit).curr ∧
    ((displayStep 600 21 runState1).digits.getD 0 zeroDigit).charMap
      = (runState1.digits.getD 0 zeroDigit).charMap ∧
    ((displayStep 600 21 runState1).digits.getD 0 zeroDigit).prev
      = ((displayStep 600 21 runState1).digits.getD 0 zeroDigit).curr ∧
    (displayStep 60 9 wAnimState).digits.getD 1 zeroDigit
      = wAnimState.digits.getD 1 zeroDigit :=
  C6_theorem runState1 wAnimState 600 21 60 9 0 1
    (by decide) (by decide) (by decide) (by decide) (by decide)
    rfl (by decide) (by decide)

/-- C1 fails as stated: in the reachable run `runState1 → runState2 →
runState3` (one value change, slot 0 rolling 1 → 4 throughout), the frame
computed at progress 1 uses the upward blend while the frame computed at
progress 2, after the supplied value dropped below `valueLast` mid-change,
uses the downward blend — and at those progress values the two directions
produce different bitmaps, so the direction is not a single per-change
decision. -/
theorem C1_counterexample :
    (runState2.digits.getD 0 zeroDigit).prev = 1 ∧
    (runState2.digits.getD 0 zeroDigit).curr = 4 ∧
    (runState2.digits.getD 0 zeroDigit).charMap = blendUp 1 4 1 ∧
    (runState3.digits.getD 0 zeroDigit).prev = 1 ∧
    (runState3.digits.getD 0 zeroDigit).curr = 4 ∧
    (runState3.digits.getD 0 zeroDigit).charMap = blendDown 1 4 2 ∧
    blendDown 1 4 2 ≠ blendUp 1 4 2 ∧
    blendUp 1 4 1 ≠ blendDown 1 4 1 := by
  decide

/-- C1 amended: the direction is a per-poll decision, shared by every slot
ticked in that poll: an `ST_ANIM` poll blends every expired slot with
`blendUp` exactly when the currently supplied value exceeds `valueLast`
(and with `blendDown` otherwise), leaves unexpired and settled slots
unchanged, and at progress 0 — the only progress used by the
change-detecting poll itself — both directions produce the same bitmap, so
the direction is uniform across a change only while the supplied value
stays on the same side of the old settled value. -/
theorem C1_theorem (s : SysState) (now v i j a b : Nat)
    (hst : s.state = MachState.ST_ANIM)
    (hi : i < s.digits.length)
    (hfne : (s.digits.getD i zeroDigit).prev ≠ (s.digits.getD i zeroDigit).curr)
    (hft : ANIMATION_FRAME_TIME ≤ now - (s.digits.getD i zeroDigit).timeLastFrame)
    (hj : j < s.digits.length)
    (hnj : (s.digits.getD j zeroDigit).prev = (s.digits.getD j zeroDigit).curr ∨
           now - (s.digits.getD j zeroDigit).timeLastFrame < ANIMATION_FRAME_TIME) :
    ((displayStep now v s).digits.getD i zeroDigit).charMap
      = (if s.valueLast < v
         then blendUp (s.digits.getD i zeroDigit).prev
                (s.digits.getD i zeroDigit).curr (s.digits.getD i zeroDigit).index
         else blendDown (s.digits.getD i zeroDigit).prev
                (s.digits.getD i zeroDigit).curr (s.digits.getD i zeroDigit).index) ∧
    (displayStep now v s).digits.getD j zeroDigit = s.digits.getD j zeroDigit ∧
    blendUp a b 0 = blendDown a b 0 := by
  refine ⟨?_, ?_, blendUp_zero a b⟩
  · rw [displayStep_ANIM now v s hst, animStep_digits,
        tickAll_getD _ now s.digits i hi,
        tickDigit_fire _ now _ hfne hft]
    by_cases h : s.valueLast < v <;> simp [h]
  · rw [displayStep_ANIM now v s hst, animStep_digits,
        tickAll_getD _ now s.digits j hj]
    rcases hnj with h | h
    · rw [tickDigit_settled _ now _ h]
    · rw [tickDigit_notTime _ now _ h]

/-- Witness for C1's amended statement on the concrete animating state
`wAnimState`: slot 0 fires with the upward blend (7 > 3), slot 1 is settled
and unchanged. -/
theorem C1_witness :
    ((displayStep 60 7 wAnimState).digits.getD 0 zeroDigit).charMap
      = (if wAnimState.valueLast < 7
         then blendUp (wAnimState.digits.getD 0 zeroDigit).prev
                (wAnimState.digits.getD 0 zeroDigit).curr
                (wAnimState.digits.getD 0 zeroDigit).index
         else blendDown (wAnimState.digits.getD 0 zeroDigit).prev
                (wAnimState.digits.getD 0 zeroDigit).curr
                (wAnimState.digits.getD 0 zeroDigit).index) ∧
    (displayStep 60 7 wAnimState).digits.getD 1 zeroDigit
      = wAnimState.digits.getD 1 zeroDigit ∧
    blendUp 2 9 0 = blendDown 2 9 0 :=
  C1_theorem wAnimState 60 7 0 1 2 9 rfl (by decide) (by decide) (by decide)
    (by decide) (by decide)

/-- C2 fails: in the reachable run `runState1`, the controller was
animating toward 1 when the external target moved to 2; at completion the
code recorded `valueLast = 2` even though the slots settled showing 1, so a
subsequent Idle poll supplying 2 reports Idle and changes nothing — the
displayed value never converges to the most recent target 2.  This
contradicts the documented intent that deferred values are "not dropped"
and the display "always converges to the most recent value", so it is a
bug in the code (`valueLast = value` at completion records the current
parameter, not the value the digits actually settled to). -/
theorem C2_theorem :
    runState1.state = MachState.ST_WAIT ∧
    runState1.valueLast = 2 ∧
    (runState1.digits.getD 0 zeroDigit).prev = 1 ∧
    (runState1.digits.getD 0 zeroDigit).curr = 1 ∧
    (runState1.digits.getD 0 zeroDigit).charMap = glyphBitmap 1 ∧
    displayValue 600 2 runState1 = (runState1, true) := by
  decide

/-- C9 fails as stated: in the reachable settled state `runState1`, slot 0
has progress 9; the poll accepting the change to 4 resets its progress and
advances one frame, leaving progress 1 — which is neither the old progress
nor the old progress plus one, so progress does not change by exactly 0 or
1 on every poll in every reachable state. -/
theorem C9_counterexample :
    (runState1.digits.getD 0 zeroDigit).index = 9 ∧
    ((displayStep 700 4 runState1).digits.getD 0 zeroDigit).index = 1 ∧
    ((displayStep 700 4 runState1).digits.getD 0 zeroDigit).index ≠
      (runState1.digits.getD 0 zeroDigit).index ∧
    ((displayStep 700 4 runState1).digits.getD 0 zeroDigit).index ≠
      (runState1.digits.getD 0 zeroDigit).index + 1 := by
  decide

/-- C9 amended: a single poll never advances a slot's progress by more than
one step — in every state, for any elapsed time, the new progress is at
most the old progress plus one (the change-accepting poll may additionally
reset progress downward to 0 before its single advance); and while
Animating, progress changes by exactly 0 or 1 per poll, so a delayed poll
delays but never skips an intermediate frame. -/
theorem C9_theorem (s t : SysState) (now v now2 v2 i j : Nat)
    (hi : i < s.digits.length)
    (ht : t.state = MachState.ST_ANIM) (hj : j < t.digits.length) :
    ((displayStep now v s).digits.getD i zeroDigit).index
        ≤ (s.digits.getD i zeroDigit).index + 1 ∧
    (((displayStep now2 v2 t).digits.getD j zeroDigit).index
        = (t.digits.getD j zeroDigit).index ∨
      ((displayStep now2 v2 t).digits.getD j zeroDigit).index
        = (t.digits.getD j zeroDigit).index + 1) := by
  constructor
  · cases hstate : s.state with
    | ST_INIT =>
        rw [displayStep_INIT now v s hstate]
        show ((seedAll v s.digits).getD i zeroDigit).index ≤ _
        rw [seedAll_getD s.digits v i hi]
        exact Nat.le_succ _
    | ST_WAIT =>
        by_cases hv : s.valueLast = v
        · rw [displayStep_WAIT_same now v s hstate hv]
          exact Nat.le_succ _
        · rw [displayStep_WAIT_accept now v s hstate hv, animStep_digits]
          refine le_trans
            (tickAll_index_le _ now (retargetAll v s.digits) i
              (by rw [retargetAll_length]; exact hi)) ?_
          rw [retargetAll_getD s.digits v i hi]
          exact Nat.succ_le_succ (Nat.zero_le _)
    | ST_ANIM =>
        rw [displayStep_ANIM now v s hstate, animStep_digits]
        exact tickAll_index_le _ now s.digits i hi
  · rw [displayStep_ANIM now2 v2 t ht, animStep_digits]
    exact tickAll_index_or _ now2 t.digits j hj

/-- Witness for C9's amended statement on the animating state `wAnimState`. -/
theorem C9_witness :
    ((displayStep 60 7 wAnimState).digits.getD 0 zeroDigit).index
        ≤ (wAnimState.digits.getD 0 zeroDigit).index + 1 ∧
    (((displayStep 80 2 wAnimState).digits.getD 1 zeroDigit).index
        = (wAnimState.digits.getD 1 zeroDigit).index ∨
      ((displayStep 80 2 wAnimState).digits.getD 1 zeroDigit).index
        = (wAnimState.digits.getD 1 zeroDigit).index + 1) :=
  C9_theorem wAnimState wAnimState 60 7 80 2 0 1 (by decide) rfl (by decide)

end LCDPushwheel
